import Mathlib

/-!
Verification of the aliyun-acm client core (src/lib.rs, src/error.rs).

Strings are modelled as `List Char` so that every operation reduces in the
kernel.  The Rust `HashMap<String, Mutex<String>>` is modelled as an
association list with HashMap insert/replace semantics; iteration order of
the map is the order of that list (the source's iteration order is likewise
unspecified).  Network calls are modelled by passing the response text (or
the resolved result) explicitly.
-/

namespace AcmVerify

/-! ## Strings as character lists -/

abbrev Str := List Char

/-- `leadsList pat s` is true when `pat` is an initial segment of `s`
(the `starts_with` test used by Rust's pattern search). -/
def leadsList : List Char → List Char → Bool
  | [], _ => true
  | _ :: _, [] => false
  | p :: ps, c :: cs => p == c && leadsList ps cs

/-- `containsPat pat s` is true when `pat` occurs contiguously inside `s`. -/
def containsPat (pat : List Char) : List Char → Bool
  | [] => pat.isEmpty
  | c :: rest => leadsList pat (c :: rest) || containsPat pat rest

/-- Fuel-driven worker for `splitOnPat`; one unit of fuel is spent per
consumed character, so fuel at least the length of the input makes the fuel
irrelevant. -/
def splitOnPatGo (c₀ : Char) (ps : List Char) : Nat → List Char → List (List Char)
  | _, [] => [[]]
  | 0, s => [s]
  | fuel + 1, c :: rest =>
    if leadsList (c₀ :: ps) (c :: rest) then
      [] :: splitOnPatGo c₀ ps fuel (rest.drop ps.length)
    else
      let tailSplit := splitOnPatGo c₀ ps fuel rest
      (c :: tailSplit.headD []) :: tailSplit.tail

/-- `splitOnPat c₀ ps s` splits `s` on every (non-overlapping, leftmost)
occurrence of the non-empty pattern `c₀ :: ps`, exactly as Rust's
`str::split` with a string pattern does. -/
def splitOnPat (c₀ : Char) (ps : List Char) (s : List Char) : List (List Char) :=
  splitOnPatGo c₀ ps s.length s

/-- Decimal rendering of a natural number (Rust's `to_string` on integers). -/
def natToDecimal (n : Nat) : Str := Nat.toDigits 10 n

/-! ## Association-list model of `HashMap<String, Mutex<String>>` -/

/-- `get_key_value`: the stored `(key, value)` pair for `k`, if present. -/
def mapGetKeyValue (m : List (Str × Str)) (k : Str) : Option (Str × Str) :=
  match m with
  | [] => none
  | (k', v) :: rest => if k' = k then some (k', v) else mapGetKeyValue rest k

/-- `get`: the stored value for key `k`, if present. -/
def mapGet (m : List (Str × Str)) (k : Str) : Option Str :=
  (mapGetKeyValue m k).map Prod.snd

/-- `insert`: replace the value if the key is present, else append the entry. -/
def mapInsert (m : List (Str × Str)) (k v : Str) : List (Str × Str) :=
  match m with
  | [] => [(k, v)]
  | (k', v') :: rest => if k' = k then (k, v) :: rest else (k', v') :: mapInsert rest k v

/-- In-place update of the value stored at key `k`; a missing key leaves the
map unchanged (the caller `update_md5` models the panic separately). -/
def mapSet (m : List (Str × Str)) (k v : Str) : List (Str × Str) :=
  match m with
  | [] => []
  | (k', v') :: rest => if k' = k then (k, v) :: rest else (k', v') :: mapSet rest k v

/-! ## Bit-level arithmetic on 32-bit words (as `Nat` mod 2^32) -/

/-- Wrap to 32 bits. -/
def w32 (x : Nat) : Nat := x % 4294967296

/-- Combine `k` low bits of two naturals with a boolean function. -/
def bitZip (f : Bool → Bool → Bool) : Nat → Nat → Nat → Nat
  | 0, _, _ => 0
  | k + 1, a, b =>
    (cond (f (a % 2 = 1) (b % 2 = 1)) 1 0) + 2 * bitZip f k (a / 2) (b / 2)

def xor32 (a b : Nat) : Nat := bitZip (fun x y => x != y) 32 a b

def and32 (a b : Nat) : Nat := bitZip (fun x y => x && y) 32 a b

def or32 (a b : Nat) : Nat := bitZip (fun x y => x || y) 32 a b

/-- Bitwise complement within 32 bits (valid for wrapped inputs). -/
def not32 (a : Nat) : Nat := 4294967295 - w32 a

/-- Xor of two bytes. -/
def xor8 (a b : Nat) : Nat := bitZip (fun x y => x != y) 8 a b

/-- Rotate a 32-bit word left by `n` bits. -/
def rotl32 (x n : Nat) : Nat := w32 (w32 (x * 2 ^ n) + x / 2 ^ (32 - n))

/-! ## Byte-string helpers -/

/-- Fuel-driven worker for `chunk64`. -/
def chunk64Go : Nat → List Nat → List (List Nat)
  | _, [] => []
  | 0, s => [s]
  | fuel + 1, x :: rest => ((x :: rest).take 64) :: chunk64Go fuel ((x :: rest).drop 64)

/-- Split a byte list into 64-byte chunks. -/
def chunk64 (s : List Nat) : List (List Nat) := chunk64Go s.length s

/-- Little-endian 32-bit words from bytes (groups of 4). -/
def bytesToWordsLE : List Nat → List Nat
  | b0 :: b1 :: b2 :: b3 :: rest =>
    (b0 + 256 * b1 + 65536 * b2 + 16777216 * b3) :: bytesToWordsLE rest
  | _ => []

/-- Big-endian 32-bit words from bytes (groups of 4). -/
def bytesToWordsBE : List Nat → List Nat
  | b0 :: b1 :: b2 :: b3 :: rest =>
    (16777216 * b0 + 65536 * b1 + 256 * b2 + b3) :: bytesToWordsBE rest
  | _ => []

/-- Little-endian byte expansion of a 32-bit word. -/
def wordToBytesLE (x : Nat) : List Nat :=
  [x % 256, x / 256 % 256, x / 65536 % 256, x / 16777216 % 256]

/-- Big-endian byte expansion of a 32-bit word. -/
def wordToBytesBE (x : Nat) : List Nat :=
  [x / 16777216 % 256, x / 65536 % 256, x / 256 % 256, x % 256]

/-- Big-endian byte expansion of a 64-bit value. -/
def word64ToBytesBE (x : Nat) : List Nat :=
  wordToBytesBE (x / 4294967296 % 4294967296) ++ wordToBytesBE (x % 4294967296)

/-- Little-endian byte expansion of a 64-bit value. -/
def word64ToBytesLE (x : Nat) : List Nat :=
  wordToBytesLE (x % 4294967296) ++ wordToBytesLE (x / 4294967296 % 4294967296)

/-- Merkle–Damgård padding shared by MD5 and SHA-1: a `0x80` byte, zeros to
56 mod 64, then the bit length as 8 bytes (`le` selects endianness). -/
def mdPad (msg : List Nat) (le : Bool) : List Nat :=
  let L := msg.length
  let zeros := List.replicate ((55 + 64 - L % 64) % 64) 0
  let lenBytes :=
    if le then word64ToBytesLE (L * 8 % 18446744073709551616)
    else word64ToBytesBE (L * 8 % 18446744073709551616)
  msg ++ [128] ++ zeros ++ lenBytes

/-- Lowercase hex digit. -/
def hexDigit (n : Nat) : Char := ("0123456789abcdef".toList).getD n '0'

/-- Lowercase hex encoding of a byte string (Rust `hex::encode`). -/
def hexEncode (bytes : List Nat) : Str :=
  (bytes.map fun b => [hexDigit (b / 16), hexDigit (b % 16)]).flatten

/-- UTF-8 bytes of one character. -/
def utf8Bytes (c : Char) : List Nat :=
  let n := c.toNat
  if n < 128 then [n]
  else if n < 2048 then [192 + n / 64, 128 + n % 64]
  else if n < 65536 then [224 + n / 4096, 128 + n / 64 % 64, 128 + n % 64]
  else [240 + n / 262144, 128 + n / 4096 % 64, 128 + n / 64 % 64, 128 + n % 64]

/-- UTF-8 bytes of a string (Rust `str::as_bytes`). -/
def strBytes (s : Str) : List Nat := (s.map utf8Bytes).flatten

/-! ## MD5 (as used by the `md5` crate for fingerprints) -/

def md5K : List Nat :=
  [0xd76aa478, 0xe8c7b756, 0x242070db, 0xc1bdceee,
   0xf57c0faf, 0x4787c62a, 0xa8304613, 0xfd469501,
   0x698098d8, 0x8b44f7af, 0xffff5bb1, 0x895cd7be,
   0x6b901122, 0xfd987193, 0xa679438e, 0x49b40821,
   0xf61e2562, 0xc040b340, 0x265e5a51, 0xe9b6c7aa,
   0xd62f105d, 0x02441453, 0xd8a1e681, 0xe7d3fbc8,
   0x21e1cde6, 0xc33707d6, 0xf4d50d87, 0x455a14ed,
   0xa9e3e905, 0xfcefa3f8, 0x676f02d9, 0x8d2a4c8a,
   0xfffa3942, 0x8771f681, 0x6d9d6122, 0xfde5380c,
   0xa4beea44, 0x4bdecfa9, 0xf6bb4b60, 0xbebfbc70,
   0x289b7ec6, 0xeaa127fa, 0xd4ef3085, 0x04881d05,
   0xd9d4d039, 0xe6db99e5, 0x1fa27cf8, 0xc4ac5665,
   0xf4292244, 0x432aff97, 0xab9423a7, 0xfc93a039,
   0x655b59c3, 0x8f0ccc92, 0xffeff47d, 0x85845dd1,
   0x6fa87e4f, 0xfe2ce6e0, 0xa3014314, 0x4e0811a1,
   0xf7537e82, 0xbd3af235, 0x2ad7d2bb, 0xeb86d391]

def md5S : List Nat :=
  [7, 12, 17, 22, 7, 12, 17, 22, 7, 12, 17, 22, 7, 12, 17, 22,
   5, 9, 14, 20, 5, 9, 14, 20, 5, 9, 14, 20, 5, 9, 14, 20,
   4, 11, 16, 23, 4, 11, 16, 23, 4, 11, 16, 23, 4, 11, 16, 23,
   6, 10, 15, 21, 6, 10, 15, 21, 6, 10, 15, 21, 6, 10, 15, 21]

def md5Step (M : List Nat) (st : Nat × Nat × Nat × Nat) (i : Nat) :
    Nat × Nat × Nat × Nat :=
  let (a, b, c, d) := st
  let f :=
    if i < 16 then or32 (and32 b c) (and32 (not32 b) d)
    else if i < 32 then or32 (and32 b d) (and32 c (not32 d))
    else if i < 48 then xor32 b (xor32 c d)
    else xor32 c (or32 b (not32 d))
  let g :=
    if i < 16 then i
    else if i < 32 then (5 * i + 1) % 16
    else if i < 48 then (3 * i + 5) % 16
    else 7 * i % 16
  let f' := w32 (f + a + md5K.getD i 0 + M.getD g 0)
  (d, w32 (b + rotl32 f' (md5S.getD i 0)), b, c)

def md5Block (st : Nat × Nat × Nat × Nat) (chunk : List Nat) :
    Nat × Nat × Nat × Nat :=
  let M := bytesToWordsLE chunk
  let (a, b, c, d) := (List.range 64).foldl (md5Step M) st
  let (a0, b0, c0, d0) := st
  (w32 (a0 + a), w32 (b0 + b), w32 (c0 + c), w32 (d0 + d))

/-- MD5 digest (16 bytes) of a byte string. -/
def md5Bytes (msg : List Nat) : List Nat :=
  let st := (chunk64 (mdPad msg true)).foldl md5Block
    (0x67452301, 0xefcdab89, 0x98badcfe, 0x10325476)
  wordToBytesLE st.1 ++ wordToBytesLE st.2.1 ++ wordToBytesLE st.2.2.1 ++
    wordToBytesLE st.2.2.2

/-- Hex-encoded MD5, the fingerprint stored by `update_md5`. -/
def md5Hex (msg : List Nat) : Str := hexEncode (md5Bytes msg)

/-! ## SHA-1 and HMAC-SHA1 (as used by the `hmacsha1` crate) -/

def sha1Expand (w : List Nat) : List Nat :=
  (List.range 64).foldl
    (fun ws j =>
      ws ++ [rotl32 (xor32 (ws.getD (j + 13) 0)
        (xor32 (ws.getD (j + 8) 0) (xor32 (ws.getD (j + 2) 0) (ws.getD j 0)))) 1])
    w

def sha1Step (w : List Nat) (st : Nat × Nat × Nat × Nat × Nat) (i : Nat) :
    Nat × Nat × Nat × Nat × Nat :=
  let (a, b, c, d, e) := st
  let f :=
    if i < 20 then or32 (and32 b c) (and32 (not32 b) d)
    else if i < 40 then xor32 b (xor32 c d)
    else if i < 60 then or32 (and32 b c) (or32 (and32 b d) (and32 c d))
    else xor32 b (xor32 c d)
  let k :=
    if i < 20 then 0x5a827999
    else if i < 40 then 0x6ed9eba1
    else if i < 60 then 0x8f1bbcdc
    else 0xca62c1d6
  let temp := w32 (rotl32 a 5 + f + e + k + w.getD i 0)
  (temp, a, rotl32 b 30, c, d)

def sha1Block (st : Nat × Nat × Nat × Nat × Nat) (chunk : List Nat) :
    Nat × Nat × Nat × Nat × Nat :=
  let w := sha1Expand (bytesToWordsBE chunk)
  let (a, b, c, d, e) := (List.range 80).foldl (sha1Step w) st
  let (a0, b0, c0, d0, e0) := st
  (w32 (a0 + a), w32 (b0 + b), w32 (c0 + c), w32 (d0 + d), w32 (e0 + e))

/-- SHA-1 digest (20 bytes) of a byte string. -/
def sha1Bytes (msg : List Nat) : List Nat :=
  let st := (chunk64 (mdPad msg false)).foldl sha1Block
    (0x67452301, 0xefcdab89, 0x98badcfe, 0x10325476, 0xc3d2e1f0)
  wordToBytesBE st.1 ++ wordToBytesBE st.2.1 ++ wordToBytesBE st.2.2.1 ++
    wordToBytesBE st.2.2.2.1 ++ wordToBytesBE st.2.2.2.2

/-- HMAC-SHA1 (RFC 2104) of `msg` keyed by `key`. -/
def hmacSha1 (key msg : List Nat) : List Nat :=
  let key := if 64 < key.length then sha1Bytes key else key
  let key := key ++ List.replicate (64 - key.length) 0
  sha1Bytes ((key.map fun b => xor8 b 0x5c) ++
    sha1Bytes ((key.map fun b => xor8 b 0x36) ++ msg))

/-! ## Base64 (standard alphabet with padding, as `base64::encode`) -/

def base64Chars : Str :=
  ("ABCDEFGHIJKLMNOPQRSTUVWXYZabcdefghijklmnopqrstuvwxyz0123456789+/").toList

def base64Digit (n : Nat) : Char := base64Chars.getD n 'A'

def base64Encode : List Nat → Str
  | [] => []
  | [b0] => [base64Digit (b0 / 4), base64Digit (b0 % 4 * 16), '=', '=']
  | [b0, b1] =>
    [base64Digit (b0 / 4), base64Digit (b0 % 4 * 16 + b1 / 16),
     base64Digit (b1 % 16 * 4), '=']
  | b0 :: b1 :: b2 :: rest =>
    [base64Digit (b0 / 4), base64Digit (b0 % 4 * 16 + b1 / 16),
     base64Digit (b1 % 16 * 4 + b2 / 64), base64Digit (b2 % 64)] ++
    base64Encode rest

/-! ## Data model (src/error.rs and src/lib.rs) -/

/-- `enum Error` from src/error.rs.  The payloads of the two wrapped library
errors are modelled as their display text. -/
inductive AcmError where
  | Custom : Str → AcmError
  | ReqwestError : Str → AcmError
  | AddrParseError : Str → AcmError
deriving DecidableEq, Repr

/-- The four octets of a `std::net::Ipv4Addr`. -/
structure Ipv4 where
  oct0 : Nat
  oct1 : Nat
  oct2 : Nat
  oct3 : Nat
deriving DecidableEq, Repr

/-- `Display` of an `Ipv4Addr`: dotted decimal. -/
def ipv4ToStr (ip : Ipv4) : Str :=
  natToDecimal ip.oct0 ++ ['.'] ++ natToDecimal ip.oct1 ++ ['.'] ++
    natToDecimal ip.oct2 ++ ['.'] ++ natToDecimal ip.oct3

/-- `struct AcmGroup` (the `namespace` field is spelt `namespace_`). -/
structure AcmGroup where
  access_key : Str
  secret_key : Str
  namespace_ : Str
  group : Str
deriving DecidableEq, Repr

/-- `struct Acm`.  `Mutex<Ipv4Addr>` is modelled as the address value and
`HashMap<String, Mutex<String>>` as an association list. -/
structure Acm where
  address_server : Str
  acm_server : Ipv4
  group : AcmGroup
  current_config : List (Str × Str)
deriving DecidableEq, Repr

/-! ## Server locator (`get_acm_server`) -/

/-- One octet of a dotted-decimal IPv4 literal, per Rust's
`Ipv4Addr::from_str`: digits only, no leading zero, value at most 255. -/
def parseOctet (s : Str) : Option Nat :=
  match s with
  | [] => none
  | c :: rest =>
    if !(c.isDigit && rest.all Char.isDigit) then none
    else if c = '0' && rest ≠ [] then none
    else
      let v := s.foldl (fun acc d => 10 * acc + (d.toNat - 48)) 0
      if v ≤ 255 then some v else none

/-- Rust's `Ipv4Addr::from_str`: exactly four octets joined by dots. -/
def parseIpv4 (s : Str) : Option Ipv4 :=
  match splitOnPat '.' [] s with
  | [a, b, c, d] =>
    match parseOctet a, parseOctet b, parseOctet c, parseOctet d with
    | some x, some y, some z, some w => some ⟨x, y, z, w⟩
    | _, _, _, _ => none
  | _ => none

/-- `get_acm_server`, given the already-fetched response text of
`GET http://{address_server}/diamond-server/diamond`: take the first line,
parse it as IPv4, and on failure produce the `Custom` error with the
offending string in its message. -/
def get_acm_server (responseText : Str) : Except AcmError Ipv4 :=
  match parseIpv4 ((splitOnPat '\n' [] responseText).headD []) with
  | some ip => .ok ip
  | none => .error (.Custom ((splitOnPat '\n' [] responseText).headD [] ++
      (" is not a valid ipv4 address").toList))

/-! ## Watch engine operations (src/lib.rs) -/

/-- The `for id in ids { current_config.insert(id, "") }` loop of `Acm::new`. -/
def insertIds (m : List (Str × Str)) : List Str → List (Str × Str)
  | [] => m
  | id :: rest => insertIds (mapInsert m id []) rest

/-- `Acm::new`, with the address-server response text standing in for the
network call inside `get_acm_server`. -/
def Acm.new (address_server : Str) (addressResponse : Str) (group : AcmGroup)
    (ids : List Str) : Except AcmError Acm :=
  match get_acm_server addressResponse with
  | .error e => .error e
  | .ok acm_server =>
    .ok { address_server, acm_server, group,
          current_config := insertIds [] ids }

/-- The URL `http://{acm_server}:8080/diamond-server/config.co` built by
`get_config` and `add_listener` from the stored server address. -/
def configUrl (acm : Acm) : Str :=
  ("http://").toList ++ ipv4ToStr acm.acm_server ++
    (":8080/diamond-server/config.co").toList

/-- `Acm::encode_acm_entries`: for every map entry append
`id 0x02 group 0x02 md5 0x02 namespace 0x01` to the message. -/
def encode_acm_entries (acm : Acm) : Str :=
  acm.current_config.foldl
    (fun message entry =>
      message ++ entry.1 ++ ['\x02'] ++ acm.group.group ++ ['\x02'] ++
        entry.2 ++ ['\x02'] ++ acm.group.namespace_ ++ ['\x01'])
    []

/-- The form body of the `add_listener` POST:
`[("Probe-Modify-Request", encode_acm_entries())]`. -/
def addListenerForm (acm : Acm) : List (Str × Str) :=
  [(("Probe-Modify-Request").toList, encode_acm_entries acm)]

/-- The record loop of `Acm::decode_acm_entry`, one iteration per piece of
`message.split("%01")`: skip a record that does not have exactly 3
`"%02"`-separated fields, whose id is not a key of `current_config`, or whose
group or namespace differs from the configured one; return the stored key of
the first record that passes. -/
def decodeLoop (acm : Acm) : List Str → Option Str
  | [] => none
  | config :: rest =>
    match splitOnPat '%' ['0', '2'] config with
    | [id, g, n] =>
      match mapGetKeyValue acm.current_config id with
      | none => decodeLoop acm rest
      | some entry =>
        if g ≠ acm.group.group then decodeLoop acm rest
        else if n ≠ acm.group.namespace_ then decodeLoop acm rest
        else some entry.1
    | _ => decodeLoop acm rest

/-- `Acm::decode_acm_entry`: split the response on the literal string
`"%01"` and scan the records. -/
def decode_acm_entry (acm : Acm) (message : Str) : Option Str :=
  decodeLoop acm (splitOnPat '%' ['0', '1'] message)

/-- The response-handling tail of `Acm::add_listener`, given the POST's
response text: empty text means no change, otherwise decode. -/
def add_listener (acm : Acm) (responseText : Str) : Option Str :=
  if responseText.isEmpty then none else decode_acm_entry acm responseText

/-- `Acm::update_md5`: hex-encoded MD5 of the config bytes becomes the
stored fingerprint of `id`; `none` models the `unwrap` panic on a missing
key. -/
def update_md5 (acm : Acm) (id : Str) (bytes : List Nat) : Option Acm :=
  match mapGet acm.current_config id with
  | none => none
  | some _ =>
    some { acm with
           current_config := mapSet acm.current_config id (md5Hex bytes) }

/-- `Acm::wait_for_new_config`: loop over successive long-poll response
texts (`responses`), with `fetch` standing in for `get_config`.  A `some id`
from `add_listener` fetches the config, updates the fingerprint and returns;
`none` retries with the next response.  The result also carries the updated
instance state. -/
def wait_for_new_config (acm : Acm) (fetch : Str → List Nat) :
    List Str → Option (Str × List Nat × Acm)
  | [] => none
  | response :: rest =>
    match add_listener acm response with
    | some id =>
      let config := fetch id
      match update_md5 acm id config with
      | some acm' => some (id, config, acm')
      | none => none
    | none => wait_for_new_config acm fetch rest

/-- `Acm::refresh_acm_server`, given the address-server response text for
the re-resolution: on success the stored address is replaced, on failure the
error propagates and the state is unchanged. -/
def refresh_acm_server (acm : Acm) (addressResponse : Str) :
    Acm × Except AcmError Unit :=
  match get_acm_server addressResponse with
  | .error e => (acm, .error e)
  | .ok acm_server => ({ acm with acm_server }, .ok ())

/-! ## Signer (`Acm::header`) -/

/-- A request builder carrying accumulated headers, the slice of
`reqwest::RequestBuilder` that `Acm::header` manipulates. -/
structure RequestBuilder where
  headers : List (Str × Str)
deriving DecidableEq, Repr

/-- `.header(name, value)` on a request builder. -/
def headerOp (rb : RequestBuilder) (name value : Str) : RequestBuilder :=
  ⟨rb.headers ++ [(name, value)]⟩

/-- The timestamp string of `Acm::header`: `duration_since(UNIX_EPOCH)`
with the `Err(e) => e.duration()` fallback is the absolute value of the
clock reading (here in nanoseconds), and `as_millis` truncates. -/
def headerTimestamp (nowNanos : Int) : Str :=
  natToDecimal (nowNanos.natAbs / 1000000)

/-- `Acm::header`: adds `Spas-AccessKey`, `timeStamp`, `Spas-Signature`
(base64 of HMAC-SHA1 over `namespace + "+" + group + "+" + timestamp` keyed
by the secret key) and `longPullingTimeout: 30000`. -/
def header (acm : Acm) (nowNanos : Int) (request : RequestBuilder) :
    RequestBuilder :=
  let timestamp := headerTimestamp nowNanos
  let message := acm.group.namespace_ ++ ['+'] ++ acm.group.group ++ ['+'] ++
    timestamp
  let signature := base64Encode
    (hmacSha1 (strBytes acm.group.secret_key) (strBytes message))
  headerOp
    (headerOp
      (headerOp
        (headerOp request ("Spas-AccessKey").toList acm.group.access_key)
        ("timeStamp").toList timestamp)
      ("Spas-Signature").toList signature)
    ("longPullingTimeout").toList ("30000").toList

/-! ## Spec-side and auxiliary definitions used by the claims -/

/-- `s` occurs at the very end of `x`. -/
def SufOf (s x : List Char) : Prop := ∃ t, x = t ++ s

/-- `pat` has no non-trivial border: no proper prefix of it is also a proper
suffix in the aligned sense needed for an overlapping match. -/
def NoBorder (pat : List Char) : Prop :=
  ∀ m, 0 < m → m < pat.length → pat.drop m ≠ pat.take (pat.length - m)

/-- A server response record `id %02 group %02 ns`, already in the shape the
decoder expects on the wire. -/
def mkRecord (group ns id : Str) : Str :=
  id ++ (['%', '0', '2'] ++ (group ++ (['%', '0', '2'] ++ ns)))

/-- A simulated long-poll response echoing one record per changed id. -/
def serverResponse (group ns : Str) (ids : List Str) : Str :=
  (ids.map fun id => mkRecord group ns id ++ ['%', '0', '1']).flatten

/-- Per-record validation, written from the spec's words (three fields, id
known, group match, namespace match), to be compared with the source's
`decode_acm_entry` loop. -/
def validRecordSpec (acm : Acm) (config : Str) : Option Str :=
  match splitOnPat '%' ['0', '2'] config with
  | [id, g, n] =>
    match mapGetKeyValue acm.current_config id with
    | none => none
    | some entry =>
      if g = acm.group.group ∧ n = acm.group.namespace_ then some entry.1 else none
  | _ => none

/-- The example instance of the spec's end-to-end scenario: group `group1`,
namespace `ns1`, ids `a` and `b` with empty fingerprints. -/
def acmEx : Acm :=
  { address_server := ("acm.example").toList,
    acm_server := ⟨1, 2, 3, 4⟩,
    group := ⟨("ak").toList, ("sk").toList, ("ns1").toList, ("group1").toList⟩,
    current_config := [(("a").toList, []), (("b").toList, [])] }

/-- An empty request builder for signer examples. -/
def rbEx : RequestBuilder := ⟨[]⟩

/-- The config bytes `b"x=1"` of the spec's end-to-end scenario. -/
def bytesEx : List Nat := strBytes (("x=1").toList)

/-- A stub `get_config` always returning `bytesEx`. -/
def fetchEx : Str → List Nat := fun _ => bytesEx

/-- `acmEx` after the fingerprint of `a` has been set to `md5_hex("x=1")`. -/
def acmEx' : Acm :=
  { acmEx with
    current_config := mapSet acmEx.current_config (("a").toList) (md5Hex bytesEx) }

end AcmVerify

deriving instance DecidableEq for Except

namespace AcmVerify

set_option maxRecDepth 100000

/-! ## Lemmas about `leadsList` and `containsPat` -/

theorem leadsList_iff (pat s : List Char) :
    leadsList pat s = true ↔ ∃ t, s = pat ++ t := by
  induction pat generalizing s with
  | nil => simp [leadsList]
  | cons p ps ih =>
    cases s with
    | nil => simp [leadsList]
    | cons c cs =>
      simp only [leadsList, Bool.and_eq_true, beq_iff_eq, ih, List.cons_append,
        List.cons.injEq]
      constructor
      · rintro ⟨h1, t, h2⟩; exact ⟨t, h1.symm, h2⟩
      · rintro ⟨t, h1, h2⟩; exact ⟨h1.symm, t, h2⟩

theorem leadsList_self_append (s t : List Char) :
    leadsList s (s ++ t) = true :=
  (leadsList_iff s (s ++ t)).mpr ⟨t, rfl⟩

theorem containsPat_of_leadsList {pat s : List Char}
    (h : leadsList pat s = true) : containsPat pat s = true := by
  cases s with
  | nil =>
    rcases (leadsList_iff pat []).mp h with ⟨t, ht⟩
    rcases List.append_eq_nil.mp ht.symm with ⟨hp, _⟩
    simp [containsPat, hp]
  | cons c cs => simp [containsPat, h]

theorem containsPat_self_append (s t : List Char) :
    containsPat s (s ++ t) = true :=
  containsPat_of_leadsList (leadsList_self_append s t)

theorem containsPat_tail {pat : List Char} {c : Char} {rest : List Char}
    (h : containsPat pat (c :: rest) = false) : containsPat pat rest = false := by
  simp only [containsPat, Bool.or_eq_false_iff] at h
  exact h.2

theorem leadsList_cons_of_containsPat_false {pat : List Char} {c : Char}
    {rest : List Char} (h : containsPat pat (c :: rest) = false) :
    leadsList pat (c :: rest) = false := by
  simp only [containsPat, Bool.or_eq_false_iff] at h
  exact h.1

/-- A pattern occurrence inside `x ++ y` seen from the head: either the
pattern starts inside `x` proper, or `x` is shorter than the pattern and the
occurrence spills into `y`. -/
theorem leadsList_append_cases {pat x y : List Char}
    (h : leadsList pat (x ++ y) = true) :
    leadsList pat x = true ∨
      (x.length < pat.length ∧ x = pat.take x.length ∧
        leadsList (pat.drop x.length) y = true) := by
  rcases (leadsList_iff pat (x ++ y)).mp h with ⟨t, ht⟩
  rcases List.append_eq_append_iff.mp ht.symm with ⟨a', hx, _⟩ | ⟨c', hp, _⟩
  · exact Or.inl ((leadsList_iff pat x).mpr ⟨a', hx⟩)
  · cases c' with
    | nil =>
      rw [List.append_nil] at hp
      exact Or.inl ((leadsList_iff pat x).mpr ⟨[], by rw [List.append_nil, hp]⟩)
    | cons d ds =>
      right
      have hy : y = (d :: ds) ++ t := by
        have hcat : x ++ y = x ++ ((d :: ds) ++ t) := by
          rw [ht, hp, List.append_assoc]
        exact List.append_cancel_left hcat
      refine ⟨?_, ?_, ?_⟩
      · rw [hp]; simp only [List.length_append, List.length_cons]; omega
      · rw [hp, List.take_left]
      · rw [hp, List.drop_left]
        exact (leadsList_iff _ _).mpr ⟨t, hy⟩

theorem SufOf.cons {s x : List Char} (c : Char) (h : SufOf s x) :
    SufOf s (c :: x) := by
  rcases h with ⟨t, ht⟩
  exact ⟨c :: t, by rw [ht]; rfl⟩

/-- No occurrence of `pat` in `x ++ y` provided there is none in `x`, none
in `y`, and none straddling the boundary. -/
theorem containsPat_append_false {pat : List Char} (x : List Char) {y : List Char}
    (hx : containsPat pat x = false) (hy : containsPat pat y = false)
    (hb : ∀ k, 0 < k → k < pat.length → SufOf (pat.take k) x →
      leadsList (pat.drop k) y = false) :
    containsPat pat (x ++ y) = false := by
  induction x with
  | nil => simpa using hy
  | cons c x' ih =>
    have hx' : containsPat pat x' = false := containsPat_tail hx
    have hb' : ∀ k, 0 < k → k < pat.length → SufOf (pat.take k) x' →
        leadsList (pat.drop k) y = false :=
      fun k h1 h2 hsuf => hb k h1 h2 (hsuf.cons c)
    have htail : containsPat pat (x' ++ y) = false := ih hx' hb'
    have hhead : leadsList pat ((c :: x') ++ y) = false := by
      cases hres : leadsList pat ((c :: x') ++ y) with
      | false => rfl
      | true =>
        rcases leadsList_append_cases hres with hl | ⟨hlen, hx_eq, hld⟩
        · rw [containsPat_of_leadsList hl] at hx; exact Bool.noConfusion hx
        · have hcontra := hb (c :: x').length (by simp) hlen ⟨[], by simpa using hx_eq⟩
          rw [hld] at hcontra; exact Bool.noConfusion hcontra
    show (leadsList pat ((c :: x') ++ y) || containsPat pat (x' ++ y)) = false
    rw [hhead, htail]; rfl

/-! ## Equations for `splitOnPat` -/

theorem splitOnPatGo_fuel (c₀ : Char) (ps : List Char) :
    ∀ n (s : List Char), s.length ≤ n →
      ∀ fuel₁ fuel₂, s.length ≤ fuel₁ → s.length ≤ fuel₂ →
        splitOnPatGo c₀ ps fuel₁ s = splitOnPatGo c₀ ps fuel₂ s := by
  intro n
  induction n with
  | zero =>
    intro s hs fuel₁ fuel₂ _ _
    have : s = [] := List.length_eq_zero.mp (Nat.le_zero.mp hs)
    subst this
    cases fuel₁ <;> cases fuel₂ <;> rfl
  | succ n ih =>
    intro s hs fuel₁ fuel₂ h1 h2
    cases s with
    | nil => cases fuel₁ <;> cases fuel₂ <;> rfl
    | cons c rest =>
      simp only [List.length_cons] at hs h1 h2
      obtain ⟨f₁, rfl⟩ : ∃ f₁, fuel₁ = f₁ + 1 := ⟨fuel₁ - 1, by omega⟩
      obtain ⟨f₂, rfl⟩ : ∃ f₂, fuel₂ = f₂ + 1 := ⟨fuel₂ - 1, by omega⟩
      simp only [splitOnPatGo]
      by_cases hl : leadsList (c₀ :: ps) (c :: rest) = true
      · simp only [if_pos hl]
        rw [ih (rest.drop ps.length) (by simp only [List.length_drop]; omega)
          f₁ f₂ (by simp only [List.length_drop]; omega)
          (by simp only [List.length_drop]; omega)]
      · simp only [if_neg hl]
        rw [ih rest (by omega) f₁ f₂ (by omega) (by omega)]

theorem splitOnPat_nil (c₀ : Char) (ps : List Char) :
    splitOnPat c₀ ps [] = [[]] := rfl

theorem splitOnPat_cons_pos {c₀ : Char} {ps : List Char} {c : Char}
    {rest : List Char} (hl : leadsList (c₀ :: ps) (c :: rest) = true) :
    splitOnPat c₀ ps (c :: rest) = [] :: splitOnPat c₀ ps (rest.drop ps.length) := by
  show splitOnPatGo c₀ ps (c :: rest).length (c :: rest) = _
  simp only [List.length_cons, splitOnPatGo, if_pos hl]
  rw [splitOnPatGo_fuel c₀ ps (rest.length) (rest.drop ps.length)
    (by simp only [List.length_drop]; omega) rest.length ((rest.drop ps.length).length)
    (by simp only [List.length_drop]; omega) (Nat.le_refl _)]
  rfl

theorem splitOnPat_cons_neg {c₀ : Char} {ps : List Char} {c : Char}
    {rest : List Char} (hl : leadsList (c₀ :: ps) (c :: rest) = false) :
    splitOnPat c₀ ps (c :: rest) =
      (c :: (splitOnPat c₀ ps rest).headD []) :: (splitOnPat c₀ ps rest).tail := by
  show splitOnPatGo c₀ ps (c :: rest).length (c :: rest) = _
  simp only [List.length_cons, splitOnPatGo, if_neg (hl ▸ Bool.false_ne_true)]
  rfl

/-! ## Splitting around clean pieces -/

theorem splitOnPat_of_no_occurrence {c₀ : Char} {ps : List Char} {s : List Char}
    (h : containsPat (c₀ :: ps) s = false) : splitOnPat c₀ ps s = [s] := by
  induction s with
  | nil => rfl
  | cons c rest ih =>
    have hl := leadsList_cons_of_containsPat_false h
    rw [splitOnPat_cons_neg hl, ih (containsPat_tail h)]
    rfl

theorem splitOnPat_append {c₀ : Char} {ps : List Char} (piece : List Char)
    {rest : List Char} (hnb : NoBorder (c₀ :: ps))
    (hp : containsPat (c₀ :: ps) piece = false) :
    splitOnPat c₀ ps (piece ++ ((c₀ :: ps) ++ rest)) =
      piece :: splitOnPat c₀ ps rest := by
  induction piece with
  | nil =>
    have hl : leadsList (c₀ :: ps) (c₀ :: (ps ++ rest)) = true :=
      leadsList_self_append (c₀ :: ps) rest
    show splitOnPat c₀ ps (c₀ :: (ps ++ rest)) = [] :: splitOnPat c₀ ps rest
    rw [splitOnPat_cons_pos hl, List.drop_left]
  | cons c piece' ih =>
    have hp' : containsPat (c₀ :: ps) piece' = false := containsPat_tail hp
    have hstep := ih hp'
    have hl : leadsList (c₀ :: ps) (c :: (piece' ++ ((c₀ :: ps) ++ rest))) = false := by
      cases hres : leadsList (c₀ :: ps) (c :: (piece' ++ ((c₀ :: ps) ++ rest))) with
      | false => rfl
      | true =>
        have hres' : leadsList (c₀ :: ps) ((c :: piece') ++ ((c₀ :: ps) ++ rest)) = true :=
          hres
        rcases leadsList_append_cases hres' with hl' | ⟨hlen, hx_eq, hld⟩
        · rw [containsPat_of_leadsList hl'] at hp; exact Bool.noConfusion hp
        · rcases (leadsList_iff _ _).mp hld with ⟨t, ht⟩
          have hlen_drop : ((c₀ :: ps).drop (c :: piece').length).length =
              (c₀ :: ps).length - (c :: piece').length := by
            simp [List.length_drop]
          have h1 : ((c₀ :: ps) ++ rest).take
                ((c₀ :: ps).length - (c :: piece').length) =
              (c₀ :: ps).take ((c₀ :: ps).length - (c :: piece').length) := by
            rw [List.take_append_eq_append_take]
            have hz : ((c₀ :: ps).length - (c :: piece').length) -
                (c₀ :: ps).length = 0 := by omega
            rw [hz, List.take_zero, List.append_nil]
          have h2 : ((c₀ :: ps).drop (c :: piece').length ++ t).take
                ((c₀ :: ps).length - (c :: piece').length) =
              (c₀ :: ps).drop (c :: piece').length := by
            rw [← hlen_drop, List.take_left]
          rw [ht, h2] at h1
          exact absurd h1 (hnb (c :: piece').length (by simp) hlen)
    show splitOnPat c₀ ps (c :: (piece' ++ ((c₀ :: ps) ++ rest))) =
      (c :: piece') :: splitOnPat c₀ ps rest
    rw [splitOnPat_cons_neg hl, hstep]
    rfl

/-! ## Lemmas about the association-list map -/

theorem mapGetKeyValue_key {m : List (Str × Str)} {k : Str} {p : Str × Str}
    (h : mapGetKeyValue m k = some p) : p.1 = k := by
  induction m with
  | nil => simp [mapGetKeyValue] at h
  | cons e rest ih =>
    obtain ⟨ek, ev⟩ := e
    by_cases he : ek = k
    · simp only [mapGetKeyValue, if_pos he] at h
      cases h
      exact he
    · simp only [mapGetKeyValue, if_neg he] at h
      exact ih h

theorem mapGet_mapInsert (m : List (Str × Str)) (k v k' : Str) :
    mapGet (mapInsert m k v) k' = if k' = k then some v else mapGet m k' := by
  induction m with
  | nil =>
    simp only [mapInsert, mapGet, mapGetKeyValue]
    by_cases h : k = k'
    · rw [if_pos h, if_pos h.symm]
      rfl
    · rw [if_neg h, if_neg (fun hc : k' = k => h hc.symm)]
  | cons e rest ih =>
    obtain ⟨ek, ev⟩ := e
    by_cases he : ek = k
    · simp only [mapInsert, if_pos he, mapGet, mapGetKeyValue]
      by_cases h : k' = k
      · rw [if_pos (h.symm : k = k'), if_pos h]
        rfl
      · rw [if_neg (fun hc : k = k' => h hc.symm), if_neg h,
          if_neg (fun hc : ek = k' => h (hc ▸ he ▸ rfl : k' = k))]
    · simp only [mapInsert, if_neg he, mapGet, mapGetKeyValue]
      by_cases hek' : ek = k'
      · have h : ¬ (k' = k) := fun hc => he (hek'.trans hc)
        rw [if_pos hek', if_neg h, if_pos hek']
      · rw [if_neg hek', if_neg hek']
        have := ih
        simp only [mapGet] at this
        rw [this]

theorem mapGet_insertIds (ids : List Str) (m : List (Str × Str)) (id : Str) :
    mapGet (insertIds m ids) id = if id ∈ ids then some [] else mapGet m id := by
  induction ids generalizing m with
  | nil => simp [insertIds]
  | cons i rest ih =>
    show mapGet (insertIds (mapInsert m i []) rest) id = _
    rw [ih]
    by_cases hmem : id ∈ rest
    · simp [hmem]
    · rw [if_neg hmem, mapGet_mapInsert]
      by_cases hid : id = i
      · simp [hid]
      · simp [hid, hmem]

theorem mapGet_mapSet_ne {m : List (Str × Str)} {k k' : Str} (v : Str)
    (h : k' ≠ k) : mapGet (mapSet m k v) k' = mapGet m k' := by
  induction m with
  | nil => rfl
  | cons e rest ih =>
    obtain ⟨ek, ev⟩ := e
    by_cases he : ek = k
    · have hkk' : ¬ (k = k') := fun hc => h hc.symm
      have hek' : ¬ (ek = k') := fun hc => h ((hc ▸ he ▸ rfl : k' = k))
      simp only [mapSet, if_pos he, mapGet, mapGetKeyValue, if_neg hkk', if_neg hek']
    · simp only [mapSet, if_neg he, mapGet, mapGetKeyValue]
      by_cases hek' : ek = k'
      · rw [if_pos hek', if_pos hek']
      · rw [if_neg hek', if_neg hek']
        have := ih
        simp only [mapGet] at this
        rw [this]

theorem containsPat_cons_false {pat : List Char} {c : Char} {w : List Char}
    (h : leadsList pat (c :: w) = false) :
    containsPat pat (c :: w) = containsPat pat w := by
  simp [containsPat, h]

theorem noBorder01 : NoBorder ['%', '0', '1'] := by
  intro m h1 h2
  have h3 : m < 3 := by simpa using h2
  interval_cases m
  · decide
  · decide

theorem noBorder02 : NoBorder ['%', '0', '2'] := by
  intro m h1 h2
  have h3 : m < 3 := by simpa using h2
  interval_cases m
  · decide
  · decide

theorem mkRecord_01_free {group ns id : Str}
    (hid : containsPat ['%', '0', '1'] id = false)
    (hg : containsPat ['%', '0', '1'] group = false)
    (hns : containsPat ['%', '0', '1'] ns = false) :
    containsPat ['%', '0', '1'] (mkRecord group ns id) = false := by
  have hA : containsPat ['%', '0', '1'] ('%' :: '0' :: '2' :: ns) = false := by
    rw [containsPat_cons_false (by rfl), containsPat_cons_false (by rfl),
      containsPat_cons_false (by rfl)]
    exact hns
  have hB : containsPat ['%', '0', '1'] (group ++ ('%' :: '0' :: '2' :: ns)) = false := by
    apply containsPat_append_false group hg hA
    intro k hk1 hk2 _
    have hk3 : k < 3 := by simpa using hk2
    interval_cases k
    · rfl
    · rfl
  have hY : containsPat ['%', '0', '1']
      ('%' :: '0' :: '2' :: (group ++ ('%' :: '0' :: '2' :: ns))) = false := by
    rw [containsPat_cons_false (by rfl), containsPat_cons_false (by rfl),
      containsPat_cons_false (by rfl)]
    exact hB
  show containsPat ['%', '0', '1']
    (id ++ ('%' :: '0' :: '2' :: (group ++ ('%' :: '0' :: '2' :: ns)))) = false
  apply containsPat_append_false id hid hY
  intro k hk1 hk2 _
  have hk3 : k < 3 := by simpa using hk2
  interval_cases k
  · rfl
  · rfl

theorem splitOnPat_serverResponse (group ns : Str) (ids : List Str)
    (hfree : ∀ id ∈ ids,
      containsPat ['%', '0', '1'] (mkRecord group ns id) = false) :
    splitOnPat '%' ['0', '1'] (serverResponse group ns ids) =
      (ids.map (mkRecord group ns)) ++ [[]] := by
  induction ids with
  | nil => rfl
  | cons id rest ih =>
    have h1 : serverResponse group ns (id :: rest) =
        mkRecord group ns id ++ (['%', '0', '1'] ++ serverResponse group ns rest) := by
      simp [serverResponse, List.append_assoc]
    rw [h1, splitOnPat_append (mkRecord group ns id) noBorder01
      (hfree id (by simp)), ih (fun i hi => hfree i (by simp [hi]))]
    rfl

theorem splitOnPat_mkRecord (group ns id : Str)
    (hid : containsPat ['%', '0', '2'] id = false)
    (hg : containsPat ['%', '0', '2'] group = false)
    (hns : containsPat ['%', '0', '2'] ns = false) :
    splitOnPat '%' ['0', '2'] (mkRecord group ns id) = [id, group, ns] := by
  unfold mkRecord
  rw [splitOnPat_append id noBorder02 hid,
    splitOnPat_append group noBorder02 hg,
    splitOnPat_of_no_occurrence hns]

theorem mapGet_mapSet_self {m : List (Str × Str)} {k : Str} (v : Str)
    (h : (mapGet m k).isSome) : mapGet (mapSet m k v) k = some v := by
  induction m with
  | nil => simp [mapGet, mapGetKeyValue] at h
  | cons e rest ih =>
    obtain ⟨ek, ev⟩ := e
    by_cases he : ek = k
    · simp [mapSet, if_pos he, mapGet, mapGetKeyValue]
    · simp only [mapSet, if_neg he, mapGet, mapGetKeyValue, if_neg he]
      simp only [mapGet, mapGetKeyValue, if_neg he] at h
      exact ih h

/-! ## Lemmas about decoding and the fingerprint update -/

theorem decodeLoop_cons_valid {acm : Acm} {config : Str} {rest : List Str} {id : Str}
    (hsplit : splitOnPat '%' ['0', '2'] config =
      [id, acm.group.group, acm.group.namespace_])
    (hmem : (mapGetKeyValue acm.current_config id).isSome = true) :
    decodeLoop acm (config :: rest) = some id := by
  obtain ⟨entry, he⟩ := Option.isSome_iff_exists.mp hmem
  have hkey : entry.1 = id := mapGetKeyValue_key he
  simp only [decodeLoop, hsplit, he]
  rw [if_neg (fun hc : acm.group.group ≠ acm.group.group => hc rfl),
    if_neg (fun hc : acm.group.namespace_ ≠ acm.group.namespace_ => hc rfl), hkey]

theorem decodeLoop_eq_findSome (acm : Acm) (records : List Str) :
    decodeLoop acm records = records.findSome? (validRecordSpec acm) := by
  induction records with
  | nil => rfl
  | cons config rest ih =>
    rw [List.findSome?_cons]
    rcases hs : splitOnPat '%' ['0', '2'] config with _ | ⟨id, _ | ⟨g, _ | ⟨n, _ | ⟨x, xs⟩⟩⟩⟩ <;>
      simp only [decodeLoop, validRecordSpec, hs] <;> try exact ih
    rcases hl : mapGetKeyValue acm.current_config id with _ | entry
    · exact ih
    · dsimp only
      by_cases hg : g = acm.group.group
      · by_cases hn : n = acm.group.namespace_
        · rw [if_neg (fun hc => hc hg), if_neg (fun hc => hc hn),
            if_pos ⟨hg, hn⟩]
        · rw [if_neg (fun hc => hc hg), if_pos hn,
            if_neg (fun hc : g = acm.group.group ∧ n = acm.group.namespace_ => hn hc.2)]
          exact ih
      · rw [if_pos hg,
          if_neg (fun hc : g = acm.group.group ∧ n = acm.group.namespace_ => hg hc.1)]
        exact ih

theorem decodeLoop_key_mem {acm : Acm} {records : List Str} {id : Str}
    (h : decodeLoop acm records = some id) :
    (mapGetKeyValue acm.current_config id).isSome = true := by
  induction records with
  | nil => simp [decodeLoop] at h
  | cons config rest ih =>
    rcases hs : splitOnPat '%' ['0', '2'] config with _ | ⟨i, _ | ⟨g, _ | ⟨n, _ | ⟨x, xs⟩⟩⟩⟩ <;>
      simp only [decodeLoop, hs] at h <;> try exact ih h
    rcases hl : mapGetKeyValue acm.current_config i with _ | entry
    · rw [hl] at h; exact ih h
    · rw [hl] at h
      dsimp only at h
      by_cases hg : g ≠ acm.group.group
      · rw [if_pos hg] at h; exact ih h
      · rw [if_neg hg] at h
        by_cases hn : n ≠ acm.group.namespace_
        · rw [if_pos hn] at h; exact ih h
        · rw [if_neg hn] at h
          have hid : entry.1 = id := Option.some.inj h
          have hkey : entry.1 = i := mapGetKeyValue_key hl
          rw [← hid, hkey, hl]
          rfl

theorem update_md5_spec {acm : Acm} {id : Str} {bytes : List Nat} {acm' : Acm}
    (h : update_md5 acm id bytes = some acm') :
    acm'.current_config = mapSet acm.current_config id (md5Hex bytes) ∧
    mapGet acm'.current_config id = some (md5Hex bytes) ∧
    ∀ id', id' ≠ id → mapGet acm'.current_config id' = mapGet acm.current_config id' := by
  unfold update_md5 at h
  rcases hg : mapGet acm.current_config id with _ | v
  · rw [hg] at h; cases h
  · rw [hg] at h
    cases h
    refine ⟨rfl, ?_, ?_⟩
    · exact mapGet_mapSet_self _ (by rw [hg]; rfl)
    · intro id' hne
      exact mapGet_mapSet_ne _ hne

theorem encode_foldl (g ns : Str) (l : List (Str × Str)) (init : Str) :
    l.foldl (fun message entry =>
      message ++ entry.1 ++ ['\x02'] ++ g ++ ['\x02'] ++ entry.2 ++ ['\x02'] ++
        ns ++ ['\x01']) init =
    init ++ (l.map fun e =>
      e.1 ++ ['\x02'] ++ g ++ ['\x02'] ++ e.2 ++ ['\x02'] ++ ns ++ ['\x01']).flatten := by
  induction l generalizing init with
  | nil => simp
  | cons e rest ih =>
    rw [List.foldl_cons, ih]
    simp [List.append_assoc]

/-! ## Claims -/

/-- C1 (counterexample): the claim as stated fails.  `acmEx` tracks id `a`
with group `group1` and namespace `ns1`; the server response built from the
subset `[a]` with the control characters 0x02/0x01 as separators decodes to
nothing, not to an id of the subset, because `decode_acm_entry` splits on the
literal strings `"%01"`/`"%02"`, not on the control characters. -/
theorem c1_control_char_response_decodes_to_none :
    decode_acm_entry acmEx
      (['a', '\x02'] ++ ("group1").toList ++ ['\x02'] ++ ("ns1").toList ++ ['\x01']) =
      none := by decide

/-- C1 (amended): for every set of tracked ids and every group, namespace and
id strings not containing the substrings `"%01"` or `"%02"`, decoding a
server response built from a non-empty subset of the tracked ids using the
field separator string `"%02"` and the record separator string `"%01"` (one
record per changed id, shape `id %02 group %02 namespace %01`) returns
exactly one id from that subset. -/
theorem c1_decode_of_server_response (acm : Acm) (ids : List Str)
    (hne : ids ≠ [])
    (hsub : ∀ id ∈ ids, (mapGetKeyValue acm.current_config id).isSome = true)
    (hid1 : ∀ id ∈ ids, containsPat ['%', '0', '1'] id = false)
    (hid2 : ∀ id ∈ ids, containsPat ['%', '0', '2'] id = false)
    (hg1 : containsPat ['%', '0', '1'] acm.group.group = false)
    (hg2 : containsPat ['%', '0', '2'] acm.group.group = false)
    (hn1 : containsPat ['%', '0', '1'] acm.group.namespace_ = false)
    (hn2 : containsPat ['%', '0', '2'] acm.group.namespace_ = false) :
    ∃ id, decode_acm_entry acm
        (serverResponse acm.group.group acm.group.namespace_ ids) = some id ∧
      id ∈ ids := by
  obtain ⟨id₀, rest, rfl⟩ : ∃ id₀ rest, ids = id₀ :: rest := by
    cases ids with
    | nil => exact absurd rfl hne
    | cons a l => exact ⟨a, l, rfl⟩
  refine ⟨id₀, ?_, by simp⟩
  unfold decode_acm_entry
  rw [splitOnPat_serverResponse _ _ _ (fun i hi =>
    mkRecord_01_free (hid1 i hi) hg1 hn1)]
  rw [List.map_cons, List.cons_append]
  exact decodeLoop_cons_valid
    (splitOnPat_mkRecord _ _ _ (hid2 id₀ (by simp)) hg2 hn2)
    (hsub id₀ (by simp))

/-- C1 (witness): the amended statement applied to `acmEx` and subset `[a]`. -/
theorem c1_decode_of_server_response_witness :
    ∃ id, decode_acm_entry acmEx
        (serverResponse acmEx.group.group acmEx.group.namespace_ [("a").toList]) =
        some id ∧
      id ∈ [("a").toList] :=
  c1_decode_of_server_response acmEx [("a").toList] (by decide) (by decide)
    (by decide) (by decide) (by decide) (by decide) (by decide) (by decide)

/-- C2: decode splits the response text into records on `"%01"` and returns
the first record passing the validation (`validRecordSpec`: exactly 3 fields,
id present in the table, group and namespace equal to the configured ones);
`List.findSome?` captures that failing records are skipped, the scan
continues, the whole decode is total, the first passing record wins without
evaluating the rest, and the result is nothing when no record passes (second
conjunct). -/
theorem c2_decode_first_match (acm : Acm) (message : Str) :
    decode_acm_entry acm message =
      (splitOnPat '%' ['0', '1'] message).findSome? (validRecordSpec acm) ∧
    ((∀ r ∈ splitOnPat '%' ['0', '1'] message, validRecordSpec acm r = none) →
      decode_acm_entry acm message = none) := by
  have hmain : decode_acm_entry acm message =
      (splitOnPat '%' ['0', '1'] message).findSome? (validRecordSpec acm) :=
    decodeLoop_eq_findSome acm _
  refine ⟨hmain, fun hall => ?_⟩
  rw [hmain]
  exact List.findSome?_eq_none_iff.mpr hall

/-- C2 (witness): a response whose records all fail validation (a malformed
record, then a record with an unknown id) decodes to nothing. -/
theorem c2_decode_first_match_witness :
    decode_acm_entry acmEx (("bad%01x%02y%02z%01").toList) = none :=
  (c2_decode_first_match acmEx (("bad%01x%02y%02z%01").toList)).2 (by decide)

/-- C3: an empty long-poll response text makes `add_listener` yield no
changed id, and repeating the call any number of times with empty input
leaves the wait loop yielding nothing every time. -/
theorem c3_empty_response_no_change (acm : Acm) :
    add_listener acm [] = none ∧
    ∀ (n : Nat) (fetch : Str → List Nat),
      wait_for_new_config acm fetch (List.replicate n []) = none := by
  refine ⟨rfl, fun n fetch => ?_⟩
  induction n with
  | zero => rfl
  | succ n ih =>
    rw [List.replicate_succ]
    show wait_for_new_config acm fetch ([] :: List.replicate n []) = none
    simp only [wait_for_new_config]
    have hnone : add_listener acm [] = none := rfl
    rw [hnone]
    exact ih

/-- C4: the signer adds exactly the headers `Spas-AccessKey` (the access
key), `timeStamp` (Unix milliseconds as a decimal string), `Spas-Signature`
(base64 of HMAC-SHA1 over `namespace + "+" + group + "+" + timestamp` keyed
by the secret key) and `longPullingTimeout` with fixed value `"30000"`; it
is total (no error path), and a clock reading before the epoch yields the
absolute elapsed time, hence a non-negative timestamp. -/
theorem c4_header_spec (acm : Acm) (nowNanos : Int) (request : RequestBuilder) :
    (header acm nowNanos request).headers = request.headers ++
      [((("Spas-AccessKey").toList : Str), acm.group.access_key),
       (("timeStamp").toList, headerTimestamp nowNanos),
       (("Spas-Signature").toList,
         base64Encode (hmacSha1 (strBytes acm.group.secret_key)
           (strBytes (acm.group.namespace_ ++ ['+'] ++ acm.group.group ++ ['+'] ++
             headerTimestamp nowNanos)))),
       (("longPullingTimeout").toList, ("30000").toList)] ∧
    (nowNanos < 0 →
      headerTimestamp nowNanos = natToDecimal ((-nowNanos).toNat / 1000000)) := by
  constructor
  · simp [header, headerOp, List.append_assoc]
  · intro hneg
    unfold headerTimestamp
    have habs : nowNanos.natAbs = (-nowNanos).toNat := by omega
    rw [habs]

/-- C4 (witness): a clock reading 2 milliseconds before the epoch still
yields the (non-negative) absolute elapsed time. -/
theorem c4_header_spec_witness :
    ((-2000000 : Int) < 0) ∧
    headerTimestamp (-2000000) = natToDecimal ((-(-2000000 : Int)).toNat / 1000000) :=
  ⟨by decide, (c4_header_spec acmEx (-2000000) rbEx).2 (by decide)⟩

/-- C5: `encode_acm_entries` is the concatenation, over the `(id, md5)`
pairs of the entry table in iteration order, of
`id 0x02 group 0x02 md5 0x02 namespace 0x01`; and that string is the sole
value of the `Probe-Modify-Request` form field of the long-poll POST body. -/
theorem c5_encode_concatenation (acm : Acm) :
    encode_acm_entries acm =
      (acm.current_config.map fun e =>
        e.1 ++ ['\x02'] ++ acm.group.group ++ ['\x02'] ++ e.2 ++ ['\x02'] ++
          acm.group.namespace_ ++ ['\x01']).flatten ∧
    addListenerForm acm =
      [(("Probe-Modify-Request").toList, encode_acm_entries acm)] := by
  refine ⟨?_, rfl⟩
  unfold encode_acm_entries
  have h := encode_foldl acm.group.group acm.group.namespace_ acm.current_config []
  rw [List.nil_append] at h
  exact h

/-- C6: the server locator consults only the first newline-separated line of
the address-server response and parses it as an IPv4 address: the response
`"1.2.3.4\nextra-garbage"` yields `1.2.3.4`, and any response whose first
line does not parse fails with a `Custom` error (not the `AddrParseError`
kind) whose message contains the offending string. -/
theorem c6_server_locator (text : Str) :
    get_acm_server (("1.2.3.4\nextra-garbage").toList) = .ok ⟨1, 2, 3, 4⟩ ∧
    (parseIpv4 ((splitOnPat '\n' [] text).headD []) = none →
      get_acm_server text = .error (.Custom
        ((splitOnPat '\n' [] text).headD [] ++
          (" is not a valid ipv4 address").toList)) ∧
      containsPat ((splitOnPat '\n' [] text).headD [])
        ((splitOnPat '\n' [] text).headD [] ++
          (" is not a valid ipv4 address").toList) = true) := by
  constructor
  · decide
  · intro h
    constructor
    · unfold get_acm_server
      rw [h]
    · exact containsPat_self_append _ _

/-- C6 (witness): the response `"not-an-ip"` fails with the `Custom` error
referencing `"not-an-ip"`. -/
theorem c6_server_locator_witness :
    parseIpv4 ((splitOnPat '\n' [] (("not-an-ip").toList)).headD []) = none ∧
    get_acm_server (("not-an-ip").toList) = .error (.Custom
      ((splitOnPat '\n' [] (("not-an-ip").toList)).headD [] ++
        (" is not a valid ipv4 address").toList)) :=
  ⟨by decide, ((c6_server_locator (("not-an-ip").toList)).2 (by decide)).1⟩

/-- C7: construction propagates a locator failure without producing an
instance, and on success the entry table holds exactly one empty-fingerprint
row per distinct id of the requested list (duplicates collapse because the
table is keyed by id). -/
theorem c7_construction (address_server addressResponse : Str) (g : AcmGroup)
    (ids : List Str) :
    (∀ e, get_acm_server addressResponse = .error e →
      Acm.new address_server addressResponse g ids = .error e) ∧
    (∀ ip, get_acm_server addressResponse = .ok ip →
      ∃ acm, Acm.new address_server addressResponse g ids = .ok acm ∧
        acm.acm_server = ip ∧ acm.address_server = address_server ∧
        acm.group = g ∧
        ∀ id, mapGet acm.current_config id =
          if id ∈ ids then some [] else none) := by
  constructor
  · intro e he
    unfold Acm.new
    rw [he]
  · intro ip hip
    unfold Acm.new
    rw [hip]
    refine ⟨_, rfl, rfl, rfl, rfl, fun id => ?_⟩
    rw [mapGet_insertIds]
    by_cases h : id ∈ ids
    · rw [if_pos h, if_pos h]
    · rw [if_neg h, if_neg h]
      rfl

/-- C7 (witness): success with duplicate ids `[a, a, b]` collapses to one
row per id, each with the empty fingerprint; and a bad locator response
propagates as the locator's error. -/
theorem c7_construction_witness :
    (∃ acm, Acm.new (("h").toList) (("1.2.3.4").toList)
        ⟨("ak").toList, ("sk").toList, ("ns1").toList, ("group1").toList⟩
        [("a").toList, ("a").toList, ("b").toList] = .ok acm ∧
      acm.acm_server = ⟨1, 2, 3, 4⟩ ∧ acm.address_server = ("h").toList ∧
      acm.group = ⟨("ak").toList, ("sk").toList, ("ns1").toList, ("group1").toList⟩ ∧
      ∀ id, mapGet acm.current_config id =
        if id ∈ [("a").toList, ("a").toList, ("b").toList] then some [] else none) ∧
    Acm.new (("h").toList) (("nope").toList)
        ⟨("ak").toList, ("sk").toList, ("ns1").toList, ("group1").toList⟩
        [("a").toList] =
      .error (.Custom ((("nope").toList) ++ (" is not a valid ipv4 address").toList)) :=
  ⟨(c7_construction (("h").toList) (("1.2.3.4").toList)
      ⟨("ak").toList, ("sk").toList, ("ns1").toList, ("group1").toList⟩
      [("a").toList, ("a").toList, ("b").toList]).2 ⟨1, 2, 3, 4⟩ (by decide),
   (c7_construction (("h").toList) (("nope").toList)
      ⟨("ak").toList, ("sk").toList, ("ns1").toList, ("group1").toList⟩
      [("a").toList]).1 _ (by decide)⟩

/-- C8: whenever the wait loop returns `(id, configBytes)` together with the
updated instance, the fingerprint of `id` has been set to the hex-encoded
MD5 of `configBytes` (which are the bytes fetched for `id`), and the
fingerprint of every other id is unchanged. -/
theorem c8_wait_updates_fingerprint (acm : Acm) (fetch : Str → List Nat)
    (responses : List Str) (id : Str) (config : List Nat) (acm' : Acm)
    (h : wait_for_new_config acm fetch responses = some (id, config, acm')) :
    config = fetch id ∧
    mapGet acm'.current_config id = some (md5Hex config) ∧
    ∀ id', id' ≠ id →
      mapGet acm'.current_config id' = mapGet acm.current_config id' := by
  induction responses with
  | nil => exact absurd h (by simp [wait_for_new_config])
  | cons r rest ih =>
    simp only [wait_for_new_config] at h
    rcases ha : add_listener acm r with _ | i
    · rw [ha] at h
      exact ih h
    · rw [ha] at h
      dsimp only at h
      rcases hu : update_md5 acm i (fetch i) with _ | acm''
      · rw [hu] at h
        exact absurd h (by simp)
      · rw [hu] at h
        dsimp only at h
        obtain ⟨h1, h2, h3⟩ : i = id ∧ fetch i = config ∧ acm'' = acm' := by
          simpa [Prod.ext_iff] using Option.some.inj h
        subst h1
        subst h3
        obtain ⟨_, hset, hframe⟩ := update_md5_spec hu
        exact ⟨h2.symm, h2 ▸ hset, fun id' hne => hframe id' hne⟩

/-- C8 (witness): the spec's end-to-end scenario with ids `[a, b]`: the
long-poll response naming `a` leads to fingerprint(`a`) = md5_hex(`x=1`)
while fingerprint(`b`) stays empty. -/
theorem c8_wait_updates_fingerprint_witness :
    wait_for_new_config acmEx fetchEx [("a%02group1%02ns1%01").toList] =
      some ((("a").toList), bytesEx, acmEx') ∧
    mapGet acmEx'.current_config (("a").toList) = some (md5Hex bytesEx) ∧
    mapGet acmEx'.current_config (("b").toList) = some [] := by
  have h : wait_for_new_config acmEx fetchEx [("a%02group1%02ns1%01").toList] =
      some ((("a").toList), bytesEx, acmEx') := by decide
  refine ⟨h, (c8_wait_updates_fingerprint acmEx fetchEx _ _ _ _ h).2.1, ?_⟩
  exact ((c8_wait_updates_fingerprint acmEx fetchEx _ _ _ _ h).2.2
    (("b").toList) (by decide)).trans (by decide)

/-- C9: `refresh_acm_server` re-resolves; on success the stored address is
replaced and the request URL built afterwards uses the new value; on failure
the locator error propagates and the stored address (hence the URL) is
unchanged. -/
theorem c9_refresh (acm : Acm) (addressResponse : Str) :
    (∀ ip, get_acm_server addressResponse = .ok ip →
      refresh_acm_server acm addressResponse =
        ({ acm with acm_server := ip }, .ok ()) ∧
      configUrl (refresh_acm_server acm addressResponse).1 =
        ("http://").toList ++ ipv4ToStr ip ++
          (":8080/diamond-server/config.co").toList) ∧
    (∀ e, get_acm_server addressResponse = .error e →
      refresh_acm_server acm addressResponse = (acm, .error e)) := by
  constructor
  · intro ip hip
    unfold refresh_acm_server
    rw [hip]
    exact ⟨rfl, rfl⟩
  · intro e he
    unfold refresh_acm_server
    rw [he]

/-- C9 (witness): refreshing `acmEx` with response `5.6.7.8` stores the new
address, refreshing with an unparseable response keeps the state and returns
the `Custom` error. -/
theorem c9_refresh_witness :
    refresh_acm_server acmEx (("5.6.7.8").toList) =
      ({ acmEx with acm_server := ⟨5, 6, 7, 8⟩ }, .ok ()) ∧
    refresh_acm_server acmEx (("nope").toList) =
      (acmEx, .error (.Custom
        ((("nope").toList) ++ (" is not a valid ipv4 address").toList))) :=
  ⟨((c9_refresh acmEx (("5.6.7.8").toList)).1 ⟨5, 6, 7, 8⟩ (by decide)).1,
   (c9_refresh acmEx (("nope").toList)).2 _ (by decide)⟩

/-- C10: every id returned by the decode step is a key already present in
the entry table, so the lookup done by `update_md5` succeeds and the
modelled `unwrap` panic (the `none` branch of `update_md5`) is unreachable
for decode-produced ids. -/
theorem c10_decode_id_tracked (acm : Acm) (message : Str) (id : Str)
    (h : decode_acm_entry acm message = some id) :
    (mapGet acm.current_config id).isSome = true ∧
    ∀ bytes, (update_md5 acm id bytes).isSome = true := by
  have hkv : (mapGetKeyValue acm.current_config id).isSome = true :=
    decodeLoop_key_mem h
  have hget : (mapGet acm.current_config id).isSome = true := by
    unfold mapGet
    rcases hx : mapGetKeyValue acm.current_config id with _ | p
    · rw [hx] at hkv
      exact Bool.noConfusion hkv
    · rfl
  refine ⟨hget, fun bytes => ?_⟩
  unfold update_md5
  rcases hx : mapGet acm.current_config id with _ | v
  · rw [hx] at hget
    exact Bool.noConfusion hget
  · rfl

/-- C10 (witness): the decode of `a%02group1%02ns1%01` yields `a`, whose
lookup and fingerprint update both succeed. -/
theorem c10_decode_id_tracked_witness :
    (mapGet acmEx.current_config (("a").toList)).isSome = true ∧
    ∀ bytes, (update_md5 acmEx (("a").toList) bytes).isSome = true :=
  c10_decode_id_tracked acmEx (("a%02group1%02ns1%01").toList) (("a").toList)
    (by decide)

end AcmVerify
